import Mathlib

/-!
Verification of the record-normalizer (`clean_data` and its helper
functions in `index.py`) of the sales-visualization script.

The embedding models a pandas cell value as `Value` (NaN/NaT, a number,
a string, or a datetime), and a DataFrame as a `Table`: a list of column
labels together with positional rows.  Machine floats are modelled as
exact rationals; the datetime payload is the (possibly fractional)
number of days since 1970-01-01 measured on the proleptic Gregorian
calendar via `daysFromCivil`.  Python string primitives (`strip`,
`lower`, `title`) are modelled on ASCII data, which covers every literal
the script compares against.
-/

/-- Python `str.strip` whitespace (ASCII part): space, tab, LF, VT, FF, CR. -/
def isPySpace (c : Char) : Bool :=
  decide (c.toNat = 32 ∨ c.toNat = 9 ∨ c.toNat = 10 ∨ c.toNat = 11 ∨
    c.toNat = 12 ∨ c.toNat = 13)

/-- ASCII cased characters, the ones `str.title` treats as word-interior. -/
def isCasedChar (c : Char) : Bool :=
  decide ((65 ≤ c.toNat ∧ c.toNat ≤ 90) ∨ (97 ≤ c.toNat ∧ c.toNat ≤ 122))

/-- Remove leading and trailing whitespace from a character list. -/
def stripList (l : List Char) : List Char :=
  ((l.dropWhile isPySpace).reverse.dropWhile isPySpace).reverse

/-- Python `str.strip()`. -/
def pyStrip (s : String) : String := String.mk (stripList s.toList)

/-- Python `str.lower()` (ASCII). -/
def pyLower (s : String) : String := String.mk (s.toList.map Char.toLower)

/-- Python `str.title()` on a character list: a character is uppercased
when the previous character is not cased, lowercased otherwise; the
`Bool` argument records whether the previous character was cased. -/
def titleList : Bool → List Char → List Char
  | _, [] => []
  | prev, c :: cs => (if prev then c.toLower else c.toUpper) :: titleList (isCasedChar c) cs

/-- Python `str.title()` (ASCII). -/
def pyTitle (s : String) : String := String.mk (titleList false s.toList)

/-- All characters are ASCII digits. -/
def allDigits (l : List Char) : Bool :=
  l.all fun c => decide (48 ≤ c.toNat ∧ c.toNat ≤ 57)

/-- Numeric value of a digit string. -/
def digitsVal (l : List Char) : Nat :=
  l.foldl (fun a c => 10 * a + (c.toNat - 48)) 0

/-- Split a character list at the first character satisfying `p`:
returns the part before it and, when found, the part after it. -/
def splitOnFirst (p : Char → Bool) : List Char → List Char × Option (List Char)
  | [] => ([], none)
  | c :: cs =>
    if p c then ([], some cs)
    else
      let r := splitOnFirst p cs
      (c :: r.1, r.2)

/-- Parse an unsigned decimal mantissa (`"12"`, `"12.5"`, `".5"`, `"12."`). -/
def parseMantissa (l : List Char) : Option ℚ :=
  match splitOnFirst (fun c => c = '.') l with
  | (w, none) =>
    if !w.isEmpty && allDigits w then some (digitsVal w) else none
  | (w, some f) =>
    if (!w.isEmpty || !f.isEmpty) && allDigits w && allDigits f then
      some ((digitsVal w : ℚ) + (digitsVal f : ℚ) / (10 : ℚ) ^ f.length)
    else none

/-- Parse a decimal exponent with optional sign. -/
def parseExpInt : List Char → Option ℤ
  | '+' :: r => if !r.isEmpty && allDigits r then some (digitsVal r) else none
  | '-' :: r => if !r.isEmpty && allDigits r then some (-(digitsVal r : ℤ)) else none
  | r => if !r.isEmpty && allDigits r then some (digitsVal r) else none

/-- Parse an unsigned decimal number with optional exponent part. -/
def parseBody (l : List Char) : Option ℚ :=
  match splitOnFirst (fun c => c = 'e' || c = 'E') l with
  | (m, none) => parseMantissa m
  | (m, some ex) =>
    match parseMantissa m, parseExpInt ex with
    | some q, some e => some (q * (10 : ℚ) ^ e)
    | _, _ => none

/-- The numeric parse performed by `float`/`pd.to_numeric` on a string:
surrounding whitespace is ignored, an optional sign precedes a decimal
mantissa with optional exponent; anything else fails. -/
def parseNum (s : String) : Option ℚ :=
  match stripList s.toList with
  | '+' :: rest => parseBody rest
  | '-' :: rest => (parseBody rest).map (fun q => -q)
  | l => parseBody l

/-- A pandas cell: the missing marker (NaN/NaT), a number, a string, or
a datetime (stored as days since 1970-01-01, possibly fractional). -/
inductive Value where
  | missing
  | num (q : ℚ)
  | str (s : String)
  | date (day : ℚ)
deriving DecidableEq

/-- Python `str()` on a cell value.  Strings render as themselves, which
is the only case any branch of the script depends on; the renderings of
the other shapes are only required never to collide with the lowercase
alphabetic tokens the script compares against, which the leading
digit/'-'/'T'/'n' guarantees. -/
def pyStr : Value → String
  | .missing => "nan"
  | .num q => toString q.num ++ (if q.den = 1 then "" else "/" ++ toString q.den)
  | .str s => s
  | .date d => "Timestamp " ++ toString d.num

/-- `clean_gender` (index.py lines 31-40): missing stays missing;
otherwise the value is rendered, stripped and lowercased, then mapped to
"Female"/"Male" on the recognized token lists and to NaN otherwise. -/
def clean_gender (gender : Value) : Value :=
  match gender with
  | .missing => .missing
  | v =>
    if pyLower (pyStrip (pyStr v)) = "women" ∨ pyLower (pyStrip (pyStr v)) = "w" ∨
        pyLower (pyStrip (pyStr v)) = "female" then .str "Female"
    else if pyLower (pyStrip (pyStr v)) = "men" ∨ pyLower (pyStrip (pyStr v)) = "m" ∨
        pyLower (pyStrip (pyStr v)) = "male" then .str "Male"
    else .missing

/-- The `qty_map` dictionary (index.py line 45). -/
def qty_map : List (String × ℚ) :=
  [("one", 1), ("two", 2), ("three", 3), ("One", 1), ("Two", 2), ("Three", 3)]

/-- The word-to-number step of the Qty cleaning (index.py line 46):
`qty_map.get(str(x).lower(), x) if isinstance(x, str) else x`. -/
def qtyWordStep (x : Value) : Value :=
  match x with
  | .str s =>
    match List.lookup (pyLower s) qty_map with
    | some n => .num n
    | none => .str s
  | v => v

/-- `pd.to_numeric(col, errors='coerce')`: numbers pass through, strings
are parsed (NaN on failure), everything else coerces to NaN. -/
def to_numeric (x : Value) : Value :=
  match x with
  | .num q => .num q
  | .str s =>
    match parseNum s with
    | some q => .num q
    | none => .missing
  | _ => .missing

/-- The Channel cleaning (index.py line 50):
`.str.strip().str.title().replace('', np.nan)`.  The pandas `.str`
accessor yields NaN on every non-string element; a string is stripped
and title-cased, and the empty string is then replaced by NaN. -/
def cleanChannelVal (x : Value) : Value :=
  match x with
  | .str s =>
    if pyTitle (pyStrip s) = "" then .missing else .str (pyTitle (pyStrip s))
  | _ => .missing

/-- Day number of a proleptic-Gregorian calendar date, counted from
1970-01-01 (Howard Hinnant's `days_from_civil`, with C-style truncated
integer division exactly as in the reference algorithm). -/
def daysFromCivil (y m d : Int) : Int :=
  let y' := if m ≤ 2 then y - 1 else y
  let era := (if 0 ≤ y' then y' else y' - 399) / 400
  let yoe := y' - era * 400
  let mp := if 2 < m then m - 3 else m + 9
  let doy := (153 * mp + 2) / 5 + d - 1
  let doe := yoe * 365 + yoe / 4 - yoe / 100 + doy
  era * 146097 + doe - 719468

/-- `pd.to_datetime(col, errors='coerce', unit='D')` (index.py line 54):
a number n denotes the instant n days after the unix epoch 1970-01-01
(pandas' default origin for `unit='D'`); numeric strings convert the
same way and unparseable ones coerce to NaT; datetimes pass through;
NaN coerces to NaT. -/
def to_datetime_D (x : Value) : Value :=
  match x with
  | .num n => .date ((daysFromCivil 1970 1 1 : ℚ) + n)
  | .str s =>
    match parseNum s with
    | some n => .date ((daysFromCivil 1970 1 1 : ℚ) + n)
    | none => .missing
  | .date d => .date d
  | .missing => .missing

/-- `get_age_group` (index.py lines 58-68).  At its only call site the
Age column has just passed through `pd.to_numeric(..., errors='coerce')`
(line 53), so the argument is always a number or NaN; the non-numeric
constructors are unreachable there and are sent to NaN. -/
def get_age_group (age : Value) : Value :=
  match age with
  | .missing => .missing
  | .num a =>
    if 3 ≤ a ∧ a ≤ 18 then .str "Teenager"
    else if 19 ≤ a ∧ a ≤ 64 then .str "Adult"
    else if 65 ≤ a then .str "Senior"
    else .str "Other"
  | _ => .missing

/-- A DataFrame: column labels plus positional rows. -/
structure Table where
  cols : List String
  rows : List (List Value)
deriving DecidableEq

/-- Read the cell of a row at a column position (NaN when absent). -/
def getCell (r : List Value) (i : Nat) : Value := r.getD i .missing

/-- Position of the first column with the given label. -/
def colIdx : List String → String → Option Nat
  | [], _ => none
  | c' :: cs, c => if c' = c then some 0 else (colIdx cs c).map (· + 1)

/-- `df[c] = df[c].apply(f)`: fails (KeyError) when the column is
absent, otherwise rewrites each row's cell at the column's position. -/
def mapCol (t : Table) (c : String) (f : Value → Value) : Option Table :=
  match colIdx t.cols c with
  | none => none
  | some i => some ⟨t.cols, t.rows.map fun r => r.set i (f (getCell r i))⟩

/-- `df[dst] = df[src].apply(f)`: fails when `src` is absent; writes
into `dst` when it exists and appends a new `dst` column otherwise. -/
def setColFrom (t : Table) (dst src : String) (f : Value → Value) : Option Table :=
  match colIdx t.cols src with
  | none => none
  | some i =>
    match colIdx t.cols dst with
    | some j => some ⟨t.cols, t.rows.map fun r => r.set j (f (getCell r i))⟩
    | none => some ⟨t.cols ++ [dst], t.rows.map fun r => r ++ [f (getCell r i)]⟩

/-- The label renaming of `df.rename(columns={'Channel ': 'Channel'})`. -/
def renameChannelName (c : String) : String :=
  if c = "Channel " then "Channel" else c

/-- Apply the Channel-header canonicalization to all column labels. -/
def renameChannel (cols : List String) : List String :=
  cols.map renameChannelName

/-- The body of `clean_data` on a non-null frame (index.py lines 29-70):
rename the trailing-space Channel header, then the per-column
assignments in source order.  Each `df[...]` column access raises on a
missing column; the returned flag is `false` in that case and the table
component is the frame's content at that point (the assignments before
the failure have already mutated it). -/
def cleanRun (t : Table) : Table × Bool :=
  let t0 : Table := ⟨renameChannel t.cols, t.rows⟩
  match mapCol t0 "Gender" clean_gender with
  | none => (t0, false)
  | some t1 =>
  match mapCol t1 "Qty" qtyWordStep with
  | none => (t1, false)
  | some t2 =>
  match mapCol t2 "Qty" to_numeric with
  | none => (t2, false)
  | some t3 =>
  match mapCol t3 "Channel" cleanChannelVal with
  | none => (t3, false)
  | some t4 =>
  match mapCol t4 "Age" to_numeric with
  | none => (t4, false)
  | some t5 =>
  match mapCol t5 "Date" to_datetime_D with
  | none => (t5, false)
  | some t6 =>
  match mapCol t6 "Amount" to_numeric with
  | none => (t6, false)
  | some t7 =>
  match setColFrom t7 "Age Group" "Age" get_age_group with
  | none => (t7, false)
  | some t8 => (t8, true)

/-- Observable outcome of calling `clean_data`:
`ret` is the returned value (`none` both for `return None` and for an
exception), `arg` is the content of the caller's DataFrame object after
the call (the function mutates its argument in place and returns that
same object), `out` lists the lines written to stdout by the modelled
`print` call (`df.info()` additionally prints a schema summary, not
modelled), and `exn` records whether an exception escaped. -/
structure PyResult where
  ret : Option Table
  arg : Option Table
  out : List String
  exn : Bool
deriving DecidableEq

/-- `clean_data` (index.py lines 24-74). -/
def clean_data : Option Table → PyResult
  | none => ⟨none, none, ["Error: No data to clean."], false⟩
  | some t =>
    match cleanRun t with
    | (t', true) => ⟨some t', some t', ["", "Dataset Info After Cleaning:"], false⟩
    | (t', false) => ⟨none, some t', [], true⟩

/-- The Qty normalization as a single per-cell function: the word-map
step of line 46 followed by the `to_numeric` of line 47. -/
def normalize_quantity (x : Value) : Value := to_numeric (qtyWordStep x)

/-- Modelled from the spec: "parse as a day-count offset from a fixed
epoch (spreadsheet serial date convention)".  The spreadsheet (Excel
1900 system) serial-date convention counts days from 1899-12-30. -/
def specSerialDate (n : ℚ) : Value :=
  .date ((daysFromCivil 1899 12 30 : ℚ) + n)

/-- Rows are rectangular: every row has one cell per column.  This is
an invariant of every real DataFrame. -/
def wfT (t : Table) : Prop := ∀ r ∈ t.rows, r.length = t.cols.length

/-- A concrete input frame with one messy row, in the shape of the
spec's end-to-end scenario. -/
def tEx : Table :=
  ⟨["Gender", "Qty", "Channel", "Age", "Date", "Amount"],
   [[.str "W", .str "One", .str " myntra ", .str "45", .missing, .num 250]]⟩

/-- Shape test: is the cell a Python `str`? -/
def isStrV : Value → Bool
  | .str _ => true
  | _ => false

instance (t : Table) : Decidable (wfT t) := by unfold wfT; infer_instance

/-- The effect of the seven `mapCol` steps of `cleanRun` on one row,
given the positions of the six cleaned columns. -/
def rowBase (ig iq ic ia idt im : Nat) (r : List Value) : List Value :=
  let r1 := r.set ig (clean_gender (getCell r ig))
  let r2 := r1.set iq (qtyWordStep (getCell r1 iq))
  let r3 := r2.set iq (to_numeric (getCell r2 iq))
  let r4 := r3.set ic (cleanChannelVal (getCell r3 ic))
  let r5 := r4.set ia (to_numeric (getCell r4 ia))
  let r6 := r5.set idt (to_datetime_D (getCell r5 idt))
  r6.set im (to_numeric (getCell r6 im))

/-- One full row of `cleanRun` when an "Age Group" column already
exists at position `jag` and is overwritten. -/
def rowOver (ig iq ic ia idt im jag : Nat) (r : List Value) : List Value :=
  (rowBase ig iq ic ia idt im r).set jag
    (get_age_group (getCell (rowBase ig iq ic ia idt im r) ia))

/-- One full row of `cleanRun` when the "Age Group" column is new and
appended on the right. -/
def rowApp (ig iq ic ia idt im : Nat) (r : List Value) : List Value :=
  rowBase ig iq ic ia idt im r ++
    [get_age_group (getCell (rowBase ig iq ic ia idt im r) ia)]

/-! ### Character-level facts about the ASCII case maps -/

theorem toNat_ofNat_add32 {n : Nat} (h1 : 65 ≤ n) (h2 : n ≤ 90) :
    (Char.ofNat (n + 32)).toNat = n + 32 := by
  interval_cases n <;> rfl

theorem toNat_ofNat_sub32 {n : Nat} (h1 : 97 ≤ n) (h2 : n ≤ 122) :
    (Char.ofNat (n - 32)).toNat = n - 32 := by
  interval_cases n <;> rfl

theorem toLower_of_upper {c : Char} (h1 : 65 ≤ c.toNat) (h2 : c.toNat ≤ 90) :
    (Char.toLower c).toNat = c.toNat + 32 := by
  show (if c.toNat ≥ 65 ∧ c.toNat ≤ 90 then Char.ofNat (c.toNat + 32) else c).toNat = _
  rw [if_pos ⟨h1, h2⟩]
  exact toNat_ofNat_add32 h1 h2

theorem toLower_not_upper {c : Char} (h : ¬(65 ≤ c.toNat ∧ c.toNat ≤ 90)) :
    Char.toLower c = c := by
  show (if c.toNat ≥ 65 ∧ c.toNat ≤ 90 then Char.ofNat (c.toNat + 32) else c) = c
  rw [if_neg h]

theorem toNat_toLower (c : Char) :
    (Char.toLower c).toNat =
      if 65 ≤ c.toNat ∧ c.toNat ≤ 90 then c.toNat + 32 else c.toNat := by
  by_cases h : 65 ≤ c.toNat ∧ c.toNat ≤ 90
  · rw [if_pos h, toLower_of_upper h.1 h.2]
  · rw [if_neg h, toLower_not_upper h]

theorem toUpper_of_lower {c : Char} (h1 : 97 ≤ c.toNat) (h2 : c.toNat ≤ 122) :
    (Char.toUpper c).toNat = c.toNat - 32 := by
  show (if c.toNat ≥ 97 ∧ c.toNat ≤ 122 then Char.ofNat (c.toNat - 32) else c).toNat = _
  rw [if_pos ⟨h1, h2⟩]
  exact toNat_ofNat_sub32 h1 h2

theorem toUpper_not_lower {c : Char} (h : ¬(97 ≤ c.toNat ∧ c.toNat ≤ 122)) :
    Char.toUpper c = c := by
  show (if c.toNat ≥ 97 ∧ c.toNat ≤ 122 then Char.ofNat (c.toNat - 32) else c) = c
  rw [if_neg h]

theorem toNat_toUpper (c : Char) :
    (Char.toUpper c).toNat =
      if 97 ≤ c.toNat ∧ c.toNat ≤ 122 then c.toNat - 32 else c.toNat := by
  by_cases h : 97 ≤ c.toNat ∧ c.toNat ≤ 122
  · rw [if_pos h, toUpper_of_lower h.1 h.2]
  · rw [if_neg h, toUpper_not_lower h]

theorem toLower_toLower (c : Char) : (Char.toLower c).toLower = Char.toLower c := by
  refine toLower_not_upper ?_
  rw [toNat_toLower]
  split_ifs with h <;> omega

theorem toUpper_toUpper (c : Char) : (Char.toUpper c).toUpper = Char.toUpper c := by
  refine toUpper_not_lower ?_
  rw [toNat_toUpper]
  split_ifs with h <;> omega

theorem isCasedChar_toLower (c : Char) : isCasedChar (Char.toLower c) = isCasedChar c := by
  simp only [isCasedChar, toNat_toLower]
  rw [decide_eq_decide]
  split_ifs with h <;> omega

theorem isCasedChar_toUpper (c : Char) : isCasedChar (Char.toUpper c) = isCasedChar c := by
  simp only [isCasedChar, toNat_toUpper]
  rw [decide_eq_decide]
  split_ifs with h <;> omega

theorem isPySpace_toLower (c : Char) : isPySpace (Char.toLower c) = isPySpace c := by
  simp only [isPySpace, toNat_toLower]
  rw [decide_eq_decide]
  split_ifs with h <;> omega

theorem isPySpace_toUpper (c : Char) : isPySpace (Char.toUpper c) = isPySpace c := by
  simp only [isPySpace, toNat_toUpper]
  rw [decide_eq_decide]
  split_ifs with h <;> omega

/-! ### The age-group buckets (claims C1 and C6) -/

theorem age_group_teen {a : ℚ} (h3 : 3 ≤ a) (h18 : a ≤ 18) :
    get_age_group (.num a) = .str "Teenager" := by
  simp only [get_age_group]
  rw [if_pos ⟨h3, h18⟩]

theorem age_group_adult {a : ℚ} (h19 : 19 ≤ a) (h64 : a ≤ 64) :
    get_age_group (.num a) = .str "Adult" := by
  simp only [get_age_group]
  rw [if_neg (by push_neg; intro _; linarith), if_pos ⟨h19, h64⟩]

theorem age_group_senior {a : ℚ} (h65 : 65 ≤ a) :
    get_age_group (.num a) = .str "Senior" := by
  simp only [get_age_group]
  rw [if_neg (by push_neg; intro _; linarith), if_neg (by push_neg; intro _; linarith),
    if_pos h65]

theorem age_group_other {a : ℚ} (h1 : ¬(3 ≤ a ∧ a ≤ 18)) (h2 : ¬(19 ≤ a ∧ a ≤ 64))
    (h3 : ¬65 ≤ a) : get_age_group (.num a) = .str "Other" := by
  simp only [get_age_group]
  rw [if_neg h1, if_neg h2, if_neg h3]

/-- C1: `get_age_group` sends a missing age to missing, ages in [3,18] to
"Teenager", ages in [19,64] to "Adult", ages ≥ 65 to "Senior", and every
other numeric age to "Other"; in particular 10 ↦ Teenager, 30 ↦ Adult,
70 ↦ Senior, 1 ↦ Other. -/
theorem claim_age_group_buckets :
    get_age_group .missing = .missing ∧
    (∀ a : ℚ, 3 ≤ a → a ≤ 18 → get_age_group (.num a) = .str "Teenager") ∧
    (∀ a : ℚ, 19 ≤ a → a ≤ 64 → get_age_group (.num a) = .str "Adult") ∧
    (∀ a : ℚ, 65 ≤ a → get_age_group (.num a) = .str "Senior") ∧
    (∀ a : ℚ, ¬(3 ≤ a ∧ a ≤ 18) → ¬(19 ≤ a ∧ a ≤ 64) → ¬65 ≤ a →
      get_age_group (.num a) = .str "Other") ∧
    get_age_group (.num 10) = .str "Teenager" ∧
    get_age_group (.num 30) = .str "Adult" ∧
    get_age_group (.num 70) = .str "Senior" ∧
    get_age_group (.num 1) = .str "Other" :=
  ⟨rfl, fun _ => age_group_teen, fun _ => age_group_adult, fun _ => age_group_senior,
   fun _ => age_group_other, by decide, by decide, by decide, by decide⟩

theorem claim_age_group_buckets_witness :
    get_age_group (.num 5) = .str "Teenager" ∧ get_age_group (.num 20) = .str "Adult" ∧
    get_age_group (.num 80) = .str "Senior" ∧ get_age_group (.num 2) = .str "Other" :=
  ⟨claim_age_group_buckets.2.1 5 (by decide) (by decide),
   claim_age_group_buckets.2.2.1 20 (by decide) (by decide),
   claim_age_group_buckets.2.2.2.1 80 (by decide),
   claim_age_group_buckets.2.2.2.2.1 2 (by decide) (by decide) (by decide)⟩

/-- C6 counterexample: the non-integer age 18.5 is at least 3 and is
still sent to "Other", so "Other" is not reachable only below age 3. -/
theorem claim_other_under_three_counterexample :
    3 ≤ (37 / 2 : ℚ) ∧ get_age_group (.num (37 / 2)) = .str "Other" := by
  constructor
  · norm_num
  · exact age_group_other (by norm_num) (by norm_num) (by norm_num)

/-- C6 amended: "Other" is reachable exactly for numeric ages below 3 or
in the fractional gaps (18,19) and (64,65); every integer age of at
least 3 falls into the Teenager, Adult, or Senior bucket. -/
theorem claim_other_age_characterization :
    (∀ a : ℚ, get_age_group (.num a) = .str "Other" ↔
      (a < 3 ∨ (18 < a ∧ a < 19) ∨ (64 < a ∧ a < 65))) ∧
    (∀ n : ℤ, 3 ≤ n →
      get_age_group (.num (n : ℚ)) = .str "Teenager" ∨
      get_age_group (.num (n : ℚ)) = .str "Adult" ∨
      get_age_group (.num (n : ℚ)) = .str "Senior") := by
  constructor
  · intro a
    constructor
    · intro h
      by_contra hcon
      push_neg at hcon
      obtain ⟨ha3, hb, hc⟩ := hcon
      by_cases h18 : a ≤ 18
      · rw [age_group_teen ha3 h18] at h
        simp at h
      · push_neg at h18
        have h19 : 19 ≤ a := hb h18
        by_cases h64 : a ≤ 64
        · rw [age_group_adult h19 h64] at h
          simp at h
        · push_neg at h64
          rw [age_group_senior (hc h64)] at h
          simp at h
    · intro h
      rcases h with h | ⟨h1, h2⟩ | ⟨h1, h2⟩
      · exact age_group_other (fun hh => by linarith [hh.1]) (fun hh => by linarith [hh.1])
          (by linarith)
      · exact age_group_other (fun hh => by linarith [hh.2]) (fun hh => by linarith [hh.1])
          (by linarith)
      · exact age_group_other (fun hh => by linarith [hh.2]) (fun hh => by linarith [hh.2])
          (by linarith)
  · intro n hn
    by_cases h18 : n ≤ 18
    · exact Or.inl (age_group_teen (by exact_mod_cast hn) (by exact_mod_cast h18))
    · by_cases h64 : n ≤ 64
      · refine Or.inr (Or.inl (age_group_adult ?_ (by exact_mod_cast h64)))
        exact_mod_cast (by omega : (19 : ℤ) ≤ n)
      · refine Or.inr (Or.inr (age_group_senior ?_))
        exact_mod_cast (by omega : (65 : ℤ) ≤ n)

theorem claim_other_age_characterization_witness :
    get_age_group (.num ((10 : ℤ) : ℚ)) = .str "Teenager" ∨
    get_age_group (.num ((10 : ℤ) : ℚ)) = .str "Adult" ∨
    get_age_group (.num ((10 : ℤ) : ℚ)) = .str "Senior" :=
  claim_other_age_characterization.2 10 (by decide)

/-! ### The date step (claims C7 and C9) -/

/-- C7 counterexample: the code does not use the spreadsheet serial-date
epoch; at day count 0 it produces 1970-01-01 while the spreadsheet
serial convention denotes 1899-12-30. -/
theorem claim_date_epoch_counterexample :
    to_datetime_D (.num 0) ≠ specSerialDate 0 := by
  simp only [to_datetime_D, specSerialDate, ne_eq, Value.date.injEq]
  norm_num [daysFromCivil]

/-- C7 amended: the date step parses a numeric value (or a numeric
string) as a day count from the unix epoch 1970-01-01 — the origin
pandas uses for `unit='D'` — not from the spreadsheet serial epoch; an
unparseable value coerces to the missing marker, and datetimes and the
missing marker pass through. -/
theorem claim_date_unix_epoch :
    (∀ n : ℚ, to_datetime_D (.num n) = .date ((daysFromCivil 1970 1 1 : ℚ) + n)) ∧
    (∀ (s : String) (n : ℚ), parseNum s = some n →
      to_datetime_D (.str s) = .date ((daysFromCivil 1970 1 1 : ℚ) + n)) ∧
    (∀ s : String, parseNum s = none → to_datetime_D (.str s) = .missing) ∧
    to_datetime_D .missing = .missing ∧
    (∀ d : ℚ, to_datetime_D (.date d) = .date d) := by
  refine ⟨fun n => rfl, fun s n h => ?_, fun s h => ?_, rfl, fun d => rfl⟩
  · simp only [to_datetime_D, h]
  · simp only [to_datetime_D, h]

theorem claim_date_unix_epoch_witness :
    to_datetime_D (.str "banana") = .missing :=
  claim_date_unix_epoch.2.2.1 "banana" (by decide)

/-- C9: on a null input `clean_data` prints the precondition diagnostic
and returns `None`: no exception, no output table, no data transformed. -/
theorem claim_none_input :
    clean_data none = ⟨none, none, ["Error: No data to clean."], false⟩ := rfl

/-! ### Gender normalization (claim C2) -/

theorem clean_gender_ne_missing (v : Value) (hv : v ≠ .missing) :
    clean_gender v =
      if pyLower (pyStrip (pyStr v)) = "women" ∨ pyLower (pyStrip (pyStr v)) = "w" ∨
          pyLower (pyStrip (pyStr v)) = "female" then .str "Female"
      else if pyLower (pyStrip (pyStr v)) = "men" ∨ pyLower (pyStrip (pyStr v)) = "m" ∨
          pyLower (pyStrip (pyStr v)) = "male" then .str "Male"
      else .missing := by
  cases v with
  | missing => exact absurd rfl hv
  | num q => rfl
  | str s => rfl
  | date d => rfl

/-- C2: `clean_gender` keeps the missing marker; any other value whose
rendering, stripped and lowercased, is one of "women"/"w"/"female" maps
to exactly "Female", one of "men"/"m"/"male" maps to exactly "Male", and
every remaining value maps to the missing marker. -/
theorem claim_gender_normalization :
    clean_gender .missing = .missing ∧
    ∀ v : Value, v ≠ .missing →
      ((pyLower (pyStrip (pyStr v)) = "women" ∨ pyLower (pyStrip (pyStr v)) = "w" ∨
          pyLower (pyStrip (pyStr v)) = "female") → clean_gender v = .str "Female") ∧
      ((pyLower (pyStrip (pyStr v)) = "men" ∨ pyLower (pyStrip (pyStr v)) = "m" ∨
          pyLower (pyStrip (pyStr v)) = "male") → clean_gender v = .str "Male") ∧
      (¬(pyLower (pyStrip (pyStr v)) = "women" ∨ pyLower (pyStrip (pyStr v)) = "w" ∨
          pyLower (pyStrip (pyStr v)) = "female") →
        ¬(pyLower (pyStrip (pyStr v)) = "men" ∨ pyLower (pyStrip (pyStr v)) = "m" ∨
          pyLower (pyStrip (pyStr v)) = "male") → clean_gender v = .missing) := by
  refine ⟨rfl, fun v hv => ⟨fun h => ?_, fun h => ?_, fun h1 h2 => ?_⟩⟩
  · rw [clean_gender_ne_missing v hv, if_pos h]
  · have hne : ¬(pyLower (pyStrip (pyStr v)) = "women" ∨ pyLower (pyStrip (pyStr v)) = "w" ∨
        pyLower (pyStrip (pyStr v)) = "female") := by
      rcases h with h | h | h <;> rw [h] <;> decide
    rw [clean_gender_ne_missing v hv, if_neg hne, if_pos h]
  · rw [clean_gender_ne_missing v hv, if_neg h1, if_neg h2]

theorem claim_gender_normalization_witness :
    clean_gender (.str " W ") = .str "Female" :=
  (claim_gender_normalization.2 (.str " W ") (by decide)).1 (by decide)

/-! ### Quantity normalization (claim C3) -/

theorem toLower_toNat_ne_upper (c : Char) :
    ¬(65 ≤ (Char.toLower c).toNat ∧ (Char.toLower c).toNat ≤ 90) := by
  rw [toNat_toLower]
  split_ifs with h <;> omega

theorem pyLower_ne_upper_head (s : String) (c : Char) (cs : List Char)
    (hc : 65 ≤ c.toNat ∧ c.toNat ≤ 90) : pyLower s ≠ String.mk (c :: cs) := by
  intro h
  have hl : s.toList.map Char.toLower = c :: cs := congrArg String.data h
  cases hS : s.toList with
  | nil => rw [hS] at hl; simp at hl
  | cons a as =>
    rw [hS] at hl
    simp only [List.map_cons, List.cons.injEq] at hl
    have hne := toLower_toNat_ne_upper a
    rw [hl.1] at hne
    exact hne hc

theorem pyLower_ne_One (s : String) : pyLower s ≠ "One" :=
  pyLower_ne_upper_head s 'O' ['n', 'e'] (by decide)

theorem pyLower_ne_Two (s : String) : pyLower s ≠ "Two" :=
  pyLower_ne_upper_head s 'T' ['w', 'o'] (by decide)

theorem pyLower_ne_Three (s : String) : pyLower s ≠ "Three" :=
  pyLower_ne_upper_head s 'T' ['h', 'r', 'e', 'e'] (by decide)

/-- C3: the Qty step maps a string whose lowercase form is "one"/"two"/
"three" to 1/2/3; every other value goes through the numeric parse,
giving the parsed number on success and the missing marker on failure;
in particular "Two", "two" and 2 give 2 and "banana" gives missing. -/
theorem claim_qty_normalization :
    (∀ s : String, pyLower s = "one" → normalize_quantity (.str s) = .num 1) ∧
    (∀ s : String, pyLower s = "two" → normalize_quantity (.str s) = .num 2) ∧
    (∀ s : String, pyLower s = "three" → normalize_quantity (.str s) = .num 3) ∧
    (∀ s : String, pyLower s ≠ "one" → pyLower s ≠ "two" → pyLower s ≠ "three" →
      (∀ q : ℚ, parseNum s = some q → normalize_quantity (.str s) = .num q) ∧
      (parseNum s = none → normalize_quantity (.str s) = .missing)) ∧
    (∀ q : ℚ, normalize_quantity (.num q) = .num q) ∧
    normalize_quantity .missing = .missing ∧
    normalize_quantity (.str "Two") = .num 2 ∧
    normalize_quantity (.str "two") = .num 2 ∧
    normalize_quantity (.str "banana") = .missing := by
  refine ⟨fun s h => ?_, fun s h => ?_, fun s h => ?_, fun s h1 h2 h3 => ?_,
    fun q => rfl, rfl, by decide, by decide, by decide⟩
  · show to_numeric (qtyWordStep (.str s)) = .num 1
    simp only [qtyWordStep, h]
    rfl
  · show to_numeric (qtyWordStep (.str s)) = .num 2
    simp only [qtyWordStep, h]
    rfl
  · show to_numeric (qtyWordStep (.str s)) = .num 3
    simp only [qtyWordStep, h]
    rfl
  · have e1 : (pyLower s == "one") = false := beq_eq_false_iff_ne.mpr h1
    have e2 : (pyLower s == "two") = false := beq_eq_false_iff_ne.mpr h2
    have e3 : (pyLower s == "three") = false := beq_eq_false_iff_ne.mpr h3
    have e4 : (pyLower s == "One") = false := beq_eq_false_iff_ne.mpr (pyLower_ne_One s)
    have e5 : (pyLower s == "Two") = false := beq_eq_false_iff_ne.mpr (pyLower_ne_Two s)
    have e6 : (pyLower s == "Three") = false := beq_eq_false_iff_ne.mpr (pyLower_ne_Three s)
    have hlk : List.lookup (pyLower s) qty_map = none := by
      simp [qty_map, List.lookup, e1, e2, e3, e4, e5, e6]
    constructor
    · intro q hq
      show to_numeric (qtyWordStep (.str s)) = .num q
      simp only [qtyWordStep, hlk, to_numeric, hq]
    · intro hq
      show to_numeric (qtyWordStep (.str s)) = .missing
      simp only [qtyWordStep, hlk, to_numeric, hq]

theorem claim_qty_normalization_witness :
    normalize_quantity (.str "TWO") = .num 2 ∧ normalize_quantity (.str "4") = .num 4 :=
  ⟨claim_qty_normalization.2.1 "TWO" (by decide),
   (claim_qty_normalization.2.2.2.1 "4" (by decide) (by decide) (by decide)).1 4 (by decide)⟩

/-! ### Channel normalization on raw values (claim C10) -/

/-- C10: the Channel step sends every non-string cell (numbers, missing,
datetimes) to the missing marker without coercing it to text; a string
cell is stripped and title-cased, with the empty result replaced by the
missing marker and any other result kept. -/
theorem claim_channel_nonstring :
    (∀ v : Value, isStrV v = false → cleanChannelVal v = .missing) ∧
    (∀ s : String, pyTitle (pyStrip s) = "" → cleanChannelVal (.str s) = .missing) ∧
    (∀ s : String, pyTitle (pyStrip s) ≠ "" →
      cleanChannelVal (.str s) = .str (pyTitle (pyStrip s))) := by
  refine ⟨fun v hv => ?_, fun s h => ?_, fun s h => ?_⟩
  · cases v with
    | str s => simp [isStrV] at hv
    | missing => rfl
    | num q => rfl
    | date d => rfl
  · simp only [cleanChannelVal, if_pos h]
  · simp only [cleanChannelVal, if_neg h]

theorem claim_channel_nonstring_witness :
    cleanChannelVal (.num 3) = .missing ∧
    cleanChannelVal (.str "  amazon ") = .str "Amazon" :=
  ⟨claim_channel_nonstring.1 (.num 3) rfl,
   (claim_channel_nonstring.2.2 "  amazon " (by decide)).trans (by decide)⟩

/-! ### Cells, column positions, and the column operations -/

theorem getCell_set_self {r : List Value} {i : Nat} (h : i < r.length) (v : Value) :
    getCell (r.set i v) i = v := by
  induction r generalizing i with
  | nil => simp at h
  | cons a as ih =>
    cases i with
    | zero => rfl
    | succ j => exact ih (Nat.lt_of_succ_lt_succ h)

theorem getCell_set_ne {r : List Value} {i j : Nat} (h : i ≠ j) (v : Value) :
    getCell (r.set i v) j = getCell r j := by
  induction r generalizing i j with
  | nil => rfl
  | cons a as ih =>
    cases i with
    | zero =>
      cases j with
      | zero => exact absurd rfl h
      | succ j' => rfl
    | succ i' =>
      cases j with
      | zero => rfl
      | succ j' =>
        have h' : i' ≠ j' := fun he => h (by rw [he])
        exact ih h'

theorem set_getCell_self (r : List Value) (i : Nat) : r.set i (getCell r i) = r := by
  induction r generalizing i with
  | nil => rfl
  | cons a as ih =>
    cases i with
    | zero => rfl
    | succ j => exact congrArg (a :: ·) (ih j)

theorem getCell_append_lt {r : List Value} (w : List Value) {i : Nat} (h : i < r.length) :
    getCell (r ++ w) i = getCell r i := by
  induction r generalizing i with
  | nil => simp at h
  | cons a as ih =>
    cases i with
    | zero => rfl
    | succ j => exact ih (Nat.lt_of_succ_lt_succ h)

theorem getCell_append_len (r : List Value) (v : Value) :
    getCell (r ++ [v]) r.length = v := by
  induction r with
  | nil => rfl
  | cons a as ih => exact ih

theorem colIdx_lt {cols : List String} {c : String} {i : Nat}
    (h : colIdx cols c = some i) : i < cols.length := by
  induction cols generalizing i with
  | nil => simp [colIdx] at h
  | cons a as ih =>
    simp only [colIdx] at h
    split_ifs at h with ha
    · cases h
      simp
    · rcases hm : colIdx as c with _ | j
      · rw [hm] at h
        simp at h
      · rw [hm] at h
        simp only [Option.map_some', Option.some.injEq] at h
        have := ih hm
        simp only [List.length_cons]
        omega

theorem colIdx_getD {cols : List String} {c : String} {i : Nat}
    (h : colIdx cols c = some i) : cols.getD i "" = c := by
  induction cols generalizing i with
  | nil => simp [colIdx] at h
  | cons a as ih =>
    simp only [colIdx] at h
    split_ifs at h with ha
    · cases h
      simpa using ha
    · rcases hm : colIdx as c with _ | j
      · rw [hm] at h
        simp at h
      · rw [hm] at h
        simp only [Option.map_some', Option.some.injEq] at h
        subst h
        simpa using ih hm

theorem colIdx_ne {cols : List String} {a b : String} {i j : Nat}
    (ha : colIdx cols a = some i) (hb : colIdx cols b = some j) (hab : a ≠ b) : i ≠ j :=
  fun he => hab (by rw [← colIdx_getD ha, he, colIdx_getD hb])

theorem colIdx_append_found {cols : List String} {c : String} {i : Nat} (l : List String)
    (h : colIdx cols c = some i) : colIdx (cols ++ l) c = some i := by
  induction cols generalizing i with
  | nil => simp [colIdx] at h
  | cons a as ih =>
    rw [List.cons_append]
    simp only [colIdx] at h ⊢
    split_ifs at h ⊢ with ha
    · exact h
    · rcases hm : colIdx as c with _ | j
      · rw [hm] at h
        simp at h
      · rw [hm] at h
        rw [ih hm]
        exact h

theorem colIdx_append_new {cols : List String} {c : String}
    (h : colIdx cols c = none) : colIdx (cols ++ [c]) c = some cols.length := by
  induction cols with
  | nil => simp [colIdx]
  | cons a as ih =>
    simp only [colIdx] at h
    split_ifs at h with ha
    have h' := ih (Option.map_eq_none'.mp h)
    show colIdx (a :: (as ++ [c])) c = some (as.length + 1)
    simp [colIdx, if_neg ha, h']

theorem colIdx_mem {cols : List String} {c : String} {i : Nat}
    (h : colIdx cols c = some i) : c ∈ cols := by
  induction cols generalizing i with
  | nil => simp [colIdx] at h
  | cons a as ih =>
    simp only [colIdx] at h
    split_ifs at h with ha
    · exact ha ▸ List.mem_cons_self a as
    · rcases hm : colIdx as c with _ | j
      · rw [hm] at h
        simp at h
      · exact List.mem_cons_of_mem a (ih hm)

theorem mapCol_eq (cols : List String) (rows : List (List Value)) {c : String} {i : Nat}
    (f : Value → Value) (h : colIdx cols c = some i) :
    mapCol ⟨cols, rows⟩ c f = some ⟨cols, rows.map fun r => r.set i (f (getCell r i))⟩ := by
  simp [mapCol, h]

theorem mapCol_nf (cols : List String) (rows : List (List Value)) {c : String}
    (f : Value → Value) (h : colIdx cols c = none) : mapCol ⟨cols, rows⟩ c f = none := by
  simp [mapCol, h]

theorem setColFrom_over (cols : List String) (rows : List (List Value))
    {dst src : String} {i j : Nat} (f : Value → Value)
    (hs : colIdx cols src = some i) (hd : colIdx cols dst = some j) :
    setColFrom ⟨cols, rows⟩ dst src f =
      some ⟨cols, rows.map fun r => r.set j (f (getCell r i))⟩ := by
  simp [setColFrom, hs, hd]

theorem setColFrom_app (cols : List String) (rows : List (List Value))
    {dst src : String} {i : Nat} (f : Value → Value)
    (hs : colIdx cols src = some i) (hd : colIdx cols dst = none) :
    setColFrom ⟨cols, rows⟩ dst src f =
      some ⟨cols ++ [dst], rows.map fun r => r ++ [f (getCell r i)]⟩ := by
  simp [setColFrom, hs, hd]

theorem setColFrom_nf (cols : List String) (rows : List (List Value))
    {dst src : String} (f : Value → Value) (hs : colIdx cols src = none) :
    setColFrom ⟨cols, rows⟩ dst src f = none := by
  simp [setColFrom, hs]

/-- Successful runs of the normalizer body, described explicitly: all
six cleaned columns are present, and the output is the renamed header
row plus the per-row cleaning, with "Age Group" either overwritten in
place or appended. -/
theorem cleanRun_true_elim {t t' : Table} (h : cleanRun t = (t', true)) :
    ∃ ig iq ic ia idt im,
      colIdx (renameChannel t.cols) "Gender" = some ig ∧
      colIdx (renameChannel t.cols) "Qty" = some iq ∧
      colIdx (renameChannel t.cols) "Channel" = some ic ∧
      colIdx (renameChannel t.cols) "Age" = some ia ∧
      colIdx (renameChannel t.cols) "Date" = some idt ∧
      colIdx (renameChannel t.cols) "Amount" = some im ∧
      ((∃ jag, colIdx (renameChannel t.cols) "Age Group" = some jag ∧
          t' = ⟨renameChannel t.cols, t.rows.map (rowOver ig iq ic ia idt im jag)⟩) ∨
       (colIdx (renameChannel t.cols) "Age Group" = none ∧
          t' = ⟨renameChannel t.cols ++ ["Age Group"],
                t.rows.map (rowApp ig iq ic ia idt im)⟩)) := by
  rcases hG : colIdx (renameChannel t.cols) "Gender" with _ | ig
  · simp only [cleanRun, mapCol_nf _ _ clean_gender hG] at h
    simp at h
  rcases hQ : colIdx (renameChannel t.cols) "Qty" with _ | iq
  · simp only [cleanRun, mapCol_eq _ _ clean_gender hG, mapCol_nf _ _ qtyWordStep hQ] at h
    simp at h
  rcases hC : colIdx (renameChannel t.cols) "Channel" with _ | ic
  · simp only [cleanRun, mapCol_eq _ _ clean_gender hG, mapCol_eq _ _ qtyWordStep hQ,
      mapCol_eq _ _ to_numeric hQ, mapCol_nf _ _ cleanChannelVal hC] at h
    simp at h
  rcases hA : colIdx (renameChannel t.cols) "Age" with _ | ia
  · simp only [cleanRun, mapCol_eq _ _ clean_gender hG, mapCol_eq _ _ qtyWordStep hQ,
      mapCol_eq _ _ to_numeric hQ, mapCol_eq _ _ cleanChannelVal hC,
      mapCol_nf _ _ to_numeric hA] at h
    simp at h
  rcases hD : colIdx (renameChannel t.cols) "Date" with _ | idt
  · simp only [cleanRun, mapCol_eq _ _ clean_gender hG, mapCol_eq _ _ qtyWordStep hQ,
      mapCol_eq _ _ to_numeric hQ, mapCol_eq _ _ cleanChannelVal hC,
      mapCol_eq _ _ to_numeric hA, mapCol_nf _ _ to_datetime_D hD] at h
    simp at h
  rcases hM : colIdx (renameChannel t.cols) "Amount" with _ | im
  · simp only [cleanRun, mapCol_eq _ _ clean_gender hG, mapCol_eq _ _ qtyWordStep hQ,
      mapCol_eq _ _ to_numeric hQ, mapCol_eq _ _ cleanChannelVal hC,
      mapCol_eq _ _ to_numeric hA, mapCol_eq _ _ to_datetime_D hD,
      mapCol_nf _ _ to_numeric hM] at h
    simp at h
  rcases hAG : colIdx (renameChannel t.cols) "Age Group" with _ | jag
  · simp only [cleanRun, mapCol_eq _ _ clean_gender hG, mapCol_eq _ _ qtyWordStep hQ,
      mapCol_eq _ _ to_numeric hQ, mapCol_eq _ _ cleanChannelVal hC,
      mapCol_eq _ _ to_numeric hA, mapCol_eq _ _ to_datetime_D hD,
      mapCol_eq _ _ to_numeric hM, setColFrom_app _ _ get_age_group hA hAG,
      List.map_map] at h
    simp only [Prod.mk.injEq] at h
    refine ⟨ig, iq, ic, ia, idt, im, rfl, rfl, rfl, rfl, rfl, rfl, Or.inr ⟨rfl, ?_⟩⟩
    rw [← h.1]
    rfl
  · simp only [cleanRun, mapCol_eq _ _ clean_gender hG, mapCol_eq _ _ qtyWordStep hQ,
      mapCol_eq _ _ to_numeric hQ, mapCol_eq _ _ cleanChannelVal hC,
      mapCol_eq _ _ to_numeric hA, mapCol_eq _ _ to_datetime_D hD,
      mapCol_eq _ _ to_numeric hM, setColFrom_over _ _ get_age_group hA hAG,
      List.map_map] at h
    simp only [Prod.mk.injEq] at h
    refine ⟨ig, iq, ic, ia, idt, im, rfl, rfl, rfl, rfl, rfl, rfl, Or.inl ⟨jag, rfl, ?_⟩⟩
    rw [← h.1]
    rfl

theorem clean_data_ret {t t' : Table} (h : (clean_data (some t)).ret = some t') :
    cleanRun t = (t', true) := by
  rcases hr : cleanRun t with ⟨tt, b⟩
  cases b
  · simp [clean_data, hr] at h
  · simp only [clean_data, hr] at h
    simp only [Option.some.injEq] at h
    rw [h]

/-- C4: a successful `clean_data` returns a table with exactly as many
rows as the input, whose column set is the input's columns (with the
trailing-space Channel header canonicalized) plus the derived
"Age Group" column; when "Age Group" was not already a column it is
appended as exactly one new rightmost column. -/
theorem claim_clean_shape (t t' : Table)
    (h : (clean_data (some t)).ret = some t') :
    t'.rows.length = t.rows.length ∧
    (∀ c, c ∈ t'.cols ↔ (c ∈ renameChannel t.cols ∨ c = "Age Group")) ∧
    ("Age Group" ∉ renameChannel t.cols → t'.cols = renameChannel t.cols ++ ["Age Group"]) := by
  obtain ⟨ig, iq, ic, ia, idt, im, hG, hQ, hC, hA, hD, hM, hcase⟩ :=
    cleanRun_true_elim (clean_data_ret h)
  rcases hcase with ⟨jag, hAG, ht⟩ | ⟨hAG, ht⟩
  · subst ht
    refine ⟨by simp, fun c => ?_, fun hnm => absurd (colIdx_mem hAG) hnm⟩
    constructor
    · exact fun hm => Or.inl hm
    · rintro (hm | rfl)
      · exact hm
      · exact colIdx_mem hAG
  · subst ht
    refine ⟨by simp, fun c => ?_, fun _ => rfl⟩
    simp [List.mem_append]

theorem claim_clean_shape_witness :
    ((cleanRun tEx).1).rows.length = tEx.rows.length :=
  (claim_clean_shape tEx (cleanRun tEx).1 (by decide)).1

/-! ### In-place mutation and printing (claim C8) -/

/-- C8 counterexample: `clean_data` does not leave its argument
unmodified — it renames the header and reassigns the columns in place,
so after the call the caller's table differs from the input. -/
theorem claim_no_side_effects_counterexample :
    (clean_data (some tEx)).arg ≠ some tEx := by
  decide

/-- C8 amended: `clean_data` cleans its argument in place — after the
call the caller's object holds the content the run produced — and on a
completed run it returns that very object (result and argument
coincide) and prints diagnostic output; the model has no other state. -/
theorem claim_clean_inplace :
    (∀ t : Table, (clean_data (some t)).arg = some ((cleanRun t).1)) ∧
    (∀ t : Table, (clean_data (some t)).exn = false →
      (clean_data (some t)).ret = (clean_data (some t)).arg ∧
      (clean_data (some t)).out ≠ []) := by
  constructor
  · intro t
    rcases hr : cleanRun t with ⟨tt, b⟩
    cases b <;> simp [clean_data, hr]
  · intro t hexn
    rcases hr : cleanRun t with ⟨tt, b⟩
    cases b
    · simp [clean_data, hr] at hexn
    · simp [clean_data, hr]

theorem claim_clean_inplace_witness :
    (clean_data (some tEx)).ret = (clean_data (some tEx)).arg ∧
    (clean_data (some tEx)).out ≠ [] :=
  claim_clean_inplace.2 tEx (by decide)

/-! ### dropWhile facts used for strip/title idempotence -/

theorem dropWhile_len_le {α : Type} (p : α → Bool) (l : List α) :
    (l.dropWhile p).length ≤ l.length := by
  induction l with
  | nil => simp
  | cons a as ih =>
    rw [List.dropWhile_cons]
    split_ifs
    · exact Nat.le_succ_of_le ih
    · simp

theorem dropWhile_idem {α : Type} (p : α → Bool) (l : List α) :
    (l.dropWhile p).dropWhile p = l.dropWhile p := by
  induction l with
  | nil => rfl
  | cons a as ih =>
    rw [List.dropWhile_cons]
    split_ifs with h
    · exact ih
    · rw [List.dropWhile_cons, if_neg h]

theorem dropWhile_head_not {α : Type} {p : α → Bool} {l : List α} :
    l.dropWhile p = [] ∨ ∃ c cs, l.dropWhile p = c :: cs ∧ p c = false := by
  induction l with
  | nil => exact Or.inl rfl
  | cons a as ih =>
    rw [List.dropWhile_cons]
    split_ifs with h
    · exact ih
    · exact Or.inr ⟨a, as, rfl, by simpa using h⟩

theorem dropWhile_cons_false {α : Type} {p : α → Bool} {c : α} (cs : List α)
    (h : p c = false) : (c :: cs).dropWhile p = c :: cs := by
  rw [List.dropWhile_cons, if_neg (by simp [h])]

theorem dropWhile_sfx {α : Type} (p : α → Bool) (l : List α) :
    ∃ u, u ++ l.dropWhile p = l := by
  induction l with
  | nil => exact ⟨[], rfl⟩
  | cons a as ih =>
    rw [List.dropWhile_cons]
    split_ifs with h
    · obtain ⟨u, hu⟩ := ih
      exact ⟨a :: u, by rw [List.cons_append, hu]⟩
    · exact ⟨[], rfl⟩

theorem dropWhile_eq_self_of_map_eq {α : Type} {p : α → Bool} {l₁ l₂ : List α}
    (hm : l₁.map p = l₂.map p) (h : l₁.dropWhile p = l₁) : l₂.dropWhile p = l₂ := by
  cases l₁ with
  | nil =>
    cases l₂ with
    | nil => rfl
    | cons b bs => simp at hm
  | cons a as =>
    cases l₂ with
    | nil => rfl
    | cons b bs =>
      simp only [List.map_cons, List.cons.injEq] at hm
      have hpa : p a = false := by
        by_contra hpa
        rw [List.dropWhile_cons, if_pos (by simpa using hpa)] at h
        have hlen := congrArg List.length h
        have hle := dropWhile_len_le p as
        simp at hlen
        omega
      exact dropWhile_cons_false bs (hm.1 ▸ hpa)

/-! ### `stripList` leaves no boundary whitespace; `titleList` respects it -/

theorem stripList_rev_fix (l : List Char) :
    (stripList l).reverse.dropWhile isPySpace = (stripList l).reverse := by
  unfold stripList
  rw [List.reverse_reverse]
  exact dropWhile_idem _ _

theorem stripList_head_fix (l : List Char) :
    (stripList l).dropWhile isPySpace = stripList l := by
  obtain ⟨u, hu⟩ := dropWhile_sfx isPySpace ((l.dropWhile isPySpace).reverse)
  have hx : stripList l ++ u.reverse = l.dropWhile isPySpace := by
    unfold stripList
    rw [← List.reverse_append, hu, List.reverse_reverse]
  rcases dropWhile_head_not (p := isPySpace) (l := l) with h0 | ⟨c, cs, hdc, hpc⟩
  · rw [h0] at hx
    have h1 : stripList l = [] := (List.append_eq_nil.mp hx).1
    rw [h1]
    rfl
  · cases hsl : stripList l with
    | nil => rfl
    | cons a as =>
      rw [hsl, hdc, List.cons_append] at hx
      injection hx with h1 h2
      exact dropWhile_cons_false as (by rw [h1]; exact hpc)

theorem stripList_of_fixed {m : List Char} (h1 : m.dropWhile isPySpace = m)
    (h2 : m.reverse.dropWhile isPySpace = m.reverse) : stripList m = m := by
  unfold stripList
  rw [h1, h2, List.reverse_reverse]

theorem titleList_map_space (b : Bool) (l : List Char) :
    (titleList b l).map isPySpace = l.map isPySpace := by
  induction l generalizing b with
  | nil => rfl
  | cons c cs ih =>
    simp only [titleList, List.map_cons, List.cons.injEq]
    refine ⟨?_, ih _⟩
    cases b
    · simp [isPySpace_toUpper]
    · simp [isPySpace_toLower]

theorem titleList_idem (b : Bool) (l : List Char) :
    titleList b (titleList b l) = titleList b l := by
  induction l generalizing b with
  | nil => rfl
  | cons c cs ih =>
    cases b
    · simp [titleList, toUpper_toUpper, isCasedChar_toUpper, ih]
    · simp [titleList, toLower_toLower, isCasedChar_toLower, ih]

/-! ### Per-value idempotence of the column normalizers -/

theorem clean_gender_range (v : Value) :
    clean_gender v = .missing ∨ clean_gender v = .str "Female" ∨
      clean_gender v = .str "Male" := by
  cases v <;> first
    | exact Or.inl rfl
    | · simp only [clean_gender]
        split_ifs <;> simp

theorem clean_gender_idem (v : Value) :
    clean_gender (clean_gender v) = clean_gender v := by
  rcases clean_gender_range v with h | h | h <;> rw [h] <;> decide

theorem to_numeric_range (v : Value) :
    to_numeric v = .missing ∨ ∃ q, to_numeric v = .num q := by
  cases v with
  | num q => exact Or.inr ⟨q, rfl⟩
  | missing => exact Or.inl rfl
  | date d => exact Or.inl rfl
  | str s =>
    rcases hp : parseNum s with _ | q
    · exact Or.inl (by simp [to_numeric, hp])
    · exact Or.inr ⟨q, by simp [to_numeric, hp]⟩

theorem to_numeric_idem (v : Value) : to_numeric (to_numeric v) = to_numeric v := by
  rcases to_numeric_range v with h | ⟨q, h⟩ <;> rw [h] <;> rfl

theorem qtyWordStep_to_numeric (v : Value) :
    qtyWordStep (to_numeric v) = to_numeric v := by
  rcases to_numeric_range v with h | ⟨q, h⟩ <;> rw [h] <;> rfl

theorem to_datetime_D_idem (v : Value) :
    to_datetime_D (to_datetime_D v) = to_datetime_D v := by
  cases v with
  | num n => rfl
  | missing => rfl
  | date d => rfl
  | str s =>
    rcases hp : parseNum s with _ | q
    · simp [to_datetime_D, hp]
    · simp [to_datetime_D, hp]

theorem cleanChannelVal_idem (v : Value) :
    cleanChannelVal (cleanChannelVal v) = cleanChannelVal v := by
  cases v with
  | missing => rfl
  | num q => rfl
  | date d => rfl
  | str s =>
    by_cases h : pyTitle (pyStrip s) = ""
    · simp [cleanChannelVal, h]
    · simp only [cleanChannelVal, if_neg h]
      have hfix : pyTitle (pyStrip (pyTitle (pyStrip s))) = pyTitle (pyStrip s) := by
        show String.mk (titleList false (stripList (titleList false (stripList s.toList)))) =
          String.mk (titleList false (stripList s.toList))
        have hm1 := stripList_head_fix s.toList
        have hm2 := stripList_rev_fix s.toList
        have hT1 : (titleList false (stripList s.toList)).dropWhile isPySpace =
            titleList false (stripList s.toList) :=
          dropWhile_eq_self_of_map_eq (titleList_map_space false (stripList s.toList)).symm hm1
        have hT2 : (titleList false (stripList s.toList)).reverse.dropWhile isPySpace =
            (titleList false (stripList s.toList)).reverse := by
          refine dropWhile_eq_self_of_map_eq ?_ hm2
          rw [List.map_reverse, List.map_reverse, titleList_map_space]
        rw [stripList_of_fixed hT1 hT2, titleList_idem]
      simp [cleanChannelVal, hfix, h]

/-! ### Reading cells through the cleaning chain -/

theorem getCell_set_eq (r : List Value) (i : Nat) (v : Value) :
    getCell (r.set i v) i = if i < r.length then v else .missing := by
  induction r generalizing i with
  | nil => simp [getCell]
  | cons a as ih =>
    cases i with
    | zero => simp [getCell]
    | succ j =>
      show getCell (as.set j v) j = if j + 1 < (a :: as).length then v else .missing
      rw [ih]
      by_cases hj : j < as.length
      · rw [if_pos hj, if_pos (by simpa using Nat.succ_lt_succ hj)]
      · rw [if_neg hj, if_neg (by simpa [Nat.succ_lt_succ_iff] using hj)]

theorem getCell_append_eq (u w : List Value) (i : Nat) :
    getCell (u ++ w) i =
      if i < u.length then getCell u i else getCell w (i - u.length) := by
  induction u generalizing i with
  | nil => simp [getCell]
  | cons a as ih =>
    cases i with
    | zero => simp [getCell]
    | succ j =>
      show getCell (as ++ w) j = _
      rw [ih]
      by_cases hj : j < as.length
      · rw [if_pos hj, if_pos (by simpa using Nat.succ_lt_succ hj)]
        rfl
      · rw [if_neg hj, if_neg (by simpa [Nat.succ_lt_succ_iff] using hj)]
        rw [List.length_cons, Nat.succ_sub_succ]

theorem rowBase_len (ig iq ic ia idt im : Nat) (r : List Value) :
    (rowBase ig iq ic ia idt im r).length = r.length := by
  simp [rowBase]

theorem rowBase_cell_gender {ig iq ic ia idt im : Nat} {r : List Value}
    (dgq : ig ≠ iq) (dgc : ig ≠ ic) (dga : ig ≠ ia) (dgd : ig ≠ idt) (dgm : ig ≠ im)
    (hlt : ig < r.length) :
    getCell (rowBase ig iq ic ia idt im r) ig = clean_gender (getCell r ig) := by
  simp only [rowBase]
  rw [getCell_set_ne (Ne.symm dgm), getCell_set_ne (Ne.symm dgd),
    getCell_set_ne (Ne.symm dga), getCell_set_ne (Ne.symm dgc),
    getCell_set_ne (Ne.symm dgq), getCell_set_ne (Ne.symm dgq), getCell_set_eq, if_pos hlt]

theorem rowBase_cell_qty {ig iq ic ia idt im : Nat} {r : List Value}
    (dgq : ig ≠ iq) (dqc : iq ≠ ic) (dqa : iq ≠ ia) (dqd : iq ≠ idt) (dqm : iq ≠ im)
    (hlt : iq < r.length) :
    getCell (rowBase ig iq ic ia idt im r) iq = to_numeric (qtyWordStep (getCell r iq)) := by
  simp only [rowBase]
  rw [getCell_set_ne (Ne.symm dqm), getCell_set_ne (Ne.symm dqd),
    getCell_set_ne (Ne.symm dqa), getCell_set_ne (Ne.symm dqc), getCell_set_eq]
  simp only [List.length_set]
  rw [if_pos hlt, getCell_set_eq]
  simp only [List.length_set]
  rw [if_pos hlt, getCell_set_ne dgq]

theorem rowBase_cell_channel {ig iq ic ia idt im : Nat} {r : List Value}
    (dgc : ig ≠ ic) (dqc : iq ≠ ic) (dca : ic ≠ ia) (dcd : ic ≠ idt) (dcm : ic ≠ im)
    (hlt : ic < r.length) :
    getCell (rowBase ig iq ic ia idt im r) ic = cleanChannelVal (getCell r ic) := by
  simp only [rowBase]
  rw [getCell_set_ne (Ne.symm dcm), getCell_set_ne (Ne.symm dcd),
    getCell_set_ne (Ne.symm dca), getCell_set_eq]
  simp only [List.length_set]
  rw [if_pos hlt, getCell_set_ne dqc, getCell_set_ne dqc, getCell_set_ne dgc]

theorem rowBase_cell_age {ig iq ic ia idt im : Nat} {r : List Value}
    (dga : ig ≠ ia) (dqa : iq ≠ ia) (dca : ic ≠ ia) (dad : ia ≠ idt) (dam : ia ≠ im)
    (hlt : ia < r.length) :
    getCell (rowBase ig iq ic ia idt im r) ia = to_numeric (getCell r ia) := by
  simp only [rowBase]
  rw [getCell_set_ne (Ne.symm dam), getCell_set_ne (Ne.symm dad), getCell_set_eq]
  simp only [List.length_set]
  rw [if_pos hlt, getCell_set_ne dca, getCell_set_ne dqa, getCell_set_ne dqa,
    getCell_set_ne dga]

theorem rowBase_cell_date {ig iq ic ia idt im : Nat} {r : List Value}
    (dgd : ig ≠ idt) (dqd : iq ≠ idt) (dcd : ic ≠ idt) (dad : ia ≠ idt) (ddm : idt ≠ im)
    (hlt : idt < r.length) :
    getCell (rowBase ig iq ic ia idt im r) idt = to_datetime_D (getCell r idt) := by
  simp only [rowBase]
  rw [getCell_set_ne (Ne.symm ddm), getCell_set_eq]
  simp only [List.length_set]
  rw [if_pos hlt, getCell_set_ne dad, getCell_set_ne dcd, getCell_set_ne dqd,
    getCell_set_ne dqd, getCell_set_ne dgd]

theorem rowBase_cell_amount {ig iq ic ia idt im : Nat} {r : List Value}
    (dgm : ig ≠ im) (dqm : iq ≠ im) (dcm : ic ≠ im) (dam : ia ≠ im) (ddm : idt ≠ im)
    (hlt : im < r.length) :
    getCell (rowBase ig iq ic ia idt im r) im = to_numeric (getCell r im) := by
  simp only [rowBase]
  rw [getCell_set_eq]
  simp only [List.length_set]
  rw [if_pos hlt, getCell_set_ne ddm, getCell_set_ne dam, getCell_set_ne dcm,
    getCell_set_ne dqm, getCell_set_ne dqm, getCell_set_ne dgm]

/-! ### A second cleaning pass leaves a cleaned row unchanged -/

theorem rowOver_fix (ig iq ic ia idt im jag : Nat) (r : List Value)
    (dgq : ig ≠ iq) (dgc : ig ≠ ic) (dga : ig ≠ ia) (dgd : ig ≠ idt) (dgm : ig ≠ im)
    (dqc : iq ≠ ic) (dqa : iq ≠ ia) (dqd : iq ≠ idt) (dqm : iq ≠ im)
    (dca : ic ≠ ia) (dcd : ic ≠ idt) (dcm : ic ≠ im)
    (dad : ia ≠ idt) (dam : ia ≠ im) (ddm : idt ≠ im)
    (dgj : ig ≠ jag) (dqj : iq ≠ jag) (dcj : ic ≠ jag) (daj : ia ≠ jag)
    (ddj : idt ≠ jag) (dmj : im ≠ jag)
    (hg : ig < r.length) (hq : iq < r.length) (hc : ic < r.length) (ha : ia < r.length)
    (hd : idt < r.length) (hm : im < r.length) (hj : jag < r.length) :
    rowOver ig iq ic ia idt im jag (rowOver ig iq ic ia idt im jag r) =
      rowOver ig iq ic ia idt im jag r := by
  have hg' : getCell (rowOver ig iq ic ia idt im jag r) ig = clean_gender (getCell r ig) := by
    show getCell ((rowBase ig iq ic ia idt im r).set jag
      (get_age_group (getCell (rowBase ig iq ic ia idt im r) ia))) ig = _
    rw [getCell_set_ne (Ne.symm dgj)]
    exact rowBase_cell_gender dgq dgc dga dgd dgm hg
  have hq' : getCell (rowOver ig iq ic ia idt im jag r) iq =
      to_numeric (qtyWordStep (getCell r iq)) := by
    show getCell ((rowBase ig iq ic ia idt im r).set jag
      (get_age_group (getCell (rowBase ig iq ic ia idt im r) ia))) iq = _
    rw [getCell_set_ne (Ne.symm dqj)]
    exact rowBase_cell_qty dgq dqc dqa dqd dqm hq
  have hc' : getCell (rowOver ig iq ic ia idt im jag r) ic =
      cleanChannelVal (getCell r ic) := by
    show getCell ((rowBase ig iq ic ia idt im r).set jag
      (get_age_group (getCell (rowBase ig iq ic ia idt im r) ia))) ic = _
    rw [getCell_set_ne (Ne.symm dcj)]
    exact rowBase_cell_channel dgc dqc dca dcd dcm hc
  have ha' : getCell (rowOver ig iq ic ia idt im jag r) ia = to_numeric (getCell r ia) := by
    show getCell ((rowBase ig iq ic ia idt im r).set jag
      (get_age_group (getCell (rowBase ig iq ic ia idt im r) ia))) ia = _
    rw [getCell_set_ne (Ne.symm daj)]
    exact rowBase_cell_age dga dqa dca dad dam ha
  have hd' : getCell (rowOver ig iq ic ia idt im jag r) idt =
      to_datetime_D (getCell r idt) := by
    show getCell ((rowBase ig iq ic ia idt im r).set jag
      (get_age_group (getCell (rowBase ig iq ic ia idt im r) ia))) idt = _
    rw [getCell_set_ne (Ne.symm ddj)]
    exact rowBase_cell_date dgd dqd dcd dad ddm hd
  have hm' : getCell (rowOver ig iq ic ia idt im jag r) im = to_numeric (getCell r im) := by
    show getCell ((rowBase ig iq ic ia idt im r).set jag
      (get_age_group (getCell (rowBase ig iq ic ia idt im r) ia))) im = _
    rw [getCell_set_ne (Ne.symm dmj)]
    exact rowBase_cell_amount dgm dqm dcm dam ddm hm
  have hj' : getCell (rowOver ig iq ic ia idt im jag r) jag =
      get_age_group (to_numeric (getCell r ia)) := by
    show getCell ((rowBase ig iq ic ia idt im r).set jag
      (get_age_group (getCell (rowBase ig iq ic ia idt im r) ia))) jag = _
    rw [getCell_set_eq]
    simp only [rowBase_len]
    rw [if_pos hj, rowBase_cell_age dga dqa dca dad dam ha]
  have s1 : (rowOver ig iq ic ia idt im jag r).set ig
      (clean_gender (getCell (rowOver ig iq ic ia idt im jag r) ig)) =
      rowOver ig iq ic ia idt im jag r := by
    rw [hg', clean_gender_idem, ← hg', set_getCell_self]
  have s2 : (rowOver ig iq ic ia idt im jag r).set iq
      (qtyWordStep (getCell (rowOver ig iq ic ia idt im jag r) iq)) =
      rowOver ig iq ic ia idt im jag r := by
    rw [hq', qtyWordStep_to_numeric, ← hq', set_getCell_self]
  have s3 : (rowOver ig iq ic ia idt im jag r).set iq
      (to_numeric (getCell (rowOver ig iq ic ia idt im jag r) iq)) =
      rowOver ig iq ic ia idt im jag r := by
    rw [hq', to_numeric_idem, ← hq', set_getCell_self]
  have s4 : (rowOver ig iq ic ia idt im jag r).set ic
      (cleanChannelVal (getCell (rowOver ig iq ic ia idt im jag r) ic)) =
      rowOver ig iq ic ia idt im jag r := by
    rw [hc', cleanChannelVal_idem, ← hc', set_getCell_self]
  have s5 : (rowOver ig iq ic ia idt im jag r).set ia
      (to_numeric (getCell (rowOver ig iq ic ia idt im jag r) ia)) =
      rowOver ig iq ic ia idt im jag r := by
    rw [ha', to_numeric_idem, ← ha', set_getCell_self]
  have s6 : (rowOver ig iq ic ia idt im jag r).set idt
      (to_datetime_D (getCell (rowOver ig iq ic ia idt im jag r) idt)) =
      rowOver ig iq ic ia idt im jag r := by
    rw [hd', to_datetime_D_idem, ← hd', set_getCell_self]
  have s7 : (rowOver ig iq ic ia idt im jag r).set im
      (to_numeric (getCell (rowOver ig iq ic ia idt im jag r) im)) =
      rowOver ig iq ic ia idt im jag r := by
    rw [hm', to_numeric_idem, ← hm', set_getCell_self]
  have hbase : rowBase ig iq ic ia idt im (rowOver ig iq ic ia idt im jag r) =
      rowOver ig iq ic ia idt im jag r := by
    simp only [rowBase]
    rw [s1, s2, s3, s4, s5, s6, s7]
  show (rowBase ig iq ic ia idt im (rowOver ig iq ic ia idt im jag r)).set jag
    (get_age_group
      (getCell (rowBase ig iq ic ia idt im (rowOver ig iq ic ia idt im jag r)) ia)) =
    rowOver ig iq ic ia idt im jag r
  rw [hbase, ha', ← hj', set_getCell_self]

theorem rowApp_fix (ig iq ic ia idt im : Nat) (r : List Value)
    (dgq : ig ≠ iq) (dgc : ig ≠ ic) (dga : ig ≠ ia) (dgd : ig ≠ idt) (dgm : ig ≠ im)
    (dqc : iq ≠ ic) (dqa : iq ≠ ia) (dqd : iq ≠ idt) (dqm : iq ≠ im)
    (dca : ic ≠ ia) (dcd : ic ≠ idt) (dcm : ic ≠ im)
    (dad : ia ≠ idt) (dam : ia ≠ im) (ddm : idt ≠ im)
    (hg : ig < r.length) (hq : iq < r.length) (hc : ic < r.length) (ha : ia < r.length)
    (hd : idt < r.length) (hm : im < r.length) :
    rowOver ig iq ic ia idt im r.length (rowApp ig iq ic ia idt im r) =
      rowApp ig iq ic ia idt im r := by
  have hg' : getCell (rowApp ig iq ic ia idt im r) ig = clean_gender (getCell r ig) := by
    show getCell (rowBase ig iq ic ia idt im r ++
      [get_age_group (getCell (rowBase ig iq ic ia idt im r) ia)]) ig = _
    rw [getCell_append_eq]
    simp only [rowBase_len]
    rw [if_pos hg]
    exact rowBase_cell_gender dgq dgc dga dgd dgm hg
  have hq' : getCell (rowApp ig iq ic ia idt im r) iq =
      to_numeric (qtyWordStep (getCell r iq)) := by
    show getCell (rowBase ig iq ic ia idt im r ++
      [get_age_group (getCell (rowBase ig iq ic ia idt im r) ia)]) iq = _
    rw [getCell_append_eq]
    simp only [rowBase_len]
    rw [if_pos hq]
    exact rowBase_cell_qty dgq dqc dqa dqd dqm hq
  have hc' : getCell (rowApp ig iq ic ia idt im r) ic = cleanChannelVal (getCell r ic) := by
    show getCell (rowBase ig iq ic ia idt im r ++
      [get_age_group (getCell (rowBase ig iq ic ia idt im r) ia)]) ic = _
    rw [getCell_append_eq]
    simp only [rowBase_len]
    rw [if_pos hc]
    exact rowBase_cell_channel dgc dqc dca dcd dcm hc
  have ha' : getCell (rowApp ig iq ic ia idt im r) ia = to_numeric (getCell r ia) := by
    show getCell (rowBase ig iq ic ia idt im r ++
      [get_age_group (getCell (rowBase ig iq ic ia idt im r) ia)]) ia = _
    rw [getCell_append_eq]
    simp only [rowBase_len]
    rw [if_pos ha]
    exact rowBase_cell_age dga dqa dca dad dam ha
  have hd' : getCell (rowApp ig iq ic ia idt im r) idt = to_datetime_D (getCell r idt) := by
    show getCell (rowBase ig iq ic ia idt im r ++
      [get_age_group (getCell (rowBase ig iq ic ia idt im r) ia)]) idt = _
    rw [getCell_append_eq]
    simp only [rowBase_len]
    rw [if_pos hd]
    exact rowBase_cell_date dgd dqd dcd dad ddm hd
  have hm' : getCell (rowApp ig iq ic ia idt im r) im = to_numeric (getCell r im) := by
    show getCell (rowBase ig iq ic ia idt im r ++
      [get_age_group (getCell (rowBase ig iq ic ia idt im r) ia)]) im = _
    rw [getCell_append_eq]
    simp only [rowBase_len]
    rw [if_pos hm]
    exact rowBase_cell_amount dgm dqm dcm dam ddm hm
  have hj' : getCell (rowApp ig iq ic ia idt im r) r.length =
      get_age_group (to_numeric (getCell r ia)) := by
    show getCell (rowBase ig iq ic ia idt im r ++
      [get_age_group (getCell (rowBase ig iq ic ia idt im r) ia)]) r.length = _
    rw [getCell_append_eq]
    simp only [rowBase_len]
    rw [if_neg (lt_irrefl _), Nat.sub_self, rowBase_cell_age dga dqa dca dad dam ha]
    rfl
  have s1 : (rowApp ig iq ic ia idt im r).set ig
      (clean_gender (getCell (rowApp ig iq ic ia idt im r) ig)) =
      rowApp ig iq ic ia idt im r := by
    rw [hg', clean_gender_idem, ← hg', set_getCell_self]
  have s2 : (rowApp ig iq ic ia idt im r).set iq
      (qtyWordStep (getCell (rowApp ig iq ic ia idt im r) iq)) =
      rowApp ig iq ic ia idt im r := by
    rw [hq', qtyWordStep_to_numeric, ← hq', set_getCell_self]
  have s3 : (rowApp ig iq ic ia idt im r).set iq
      (to_numeric (getCell (rowApp ig iq ic ia idt im r) iq)) =
      rowApp ig iq ic ia idt im r := by
    rw [hq', to_numeric_idem, ← hq', set_getCell_self]
  have s4 : (rowApp ig iq ic ia idt im r).set ic
      (cleanChannelVal (getCell (rowApp ig iq ic ia idt im r) ic)) =
      rowApp ig iq ic ia idt im r := by
    rw [hc', cleanChannelVal_idem, ← hc', set_getCell_self]
  have s5 : (rowApp ig iq ic ia idt im r).set ia
      (to_numeric (getCell (rowApp ig iq ic ia idt im r) ia)) =
      rowApp ig iq ic ia idt im r := by
    rw [ha', to_numeric_idem, ← ha', set_getCell_self]
  have s6 : (rowApp ig iq ic ia idt im r).set idt
      (to_datetime_D (getCell (rowApp ig iq ic ia idt im r) idt)) =
      rowApp ig iq ic ia idt im r := by
    rw [hd', to_datetime_D_idem, ← hd', set_getCell_self]
  have s7 : (rowApp ig iq ic ia idt im r).set im
      (to_numeric (getCell (rowApp ig iq ic ia idt im r) im)) =
      rowApp ig iq ic ia idt im r := by
    rw [hm', to_numeric_idem, ← hm', set_getCell_self]
  have hbase : rowBase ig iq ic ia idt im (rowApp ig iq ic ia idt im r) =
      rowApp ig iq ic ia idt im r := by
    simp only [rowBase]
    rw [s1, s2, s3, s4, s5, s6, s7]
  show (rowBase ig iq ic ia idt im (rowApp ig iq ic ia idt im r)).set r.length
    (get_age_group
      (getCell (rowBase ig iq ic ia idt im (rowApp ig iq ic ia idt im r)) ia)) =
    rowApp ig iq ic ia idt im r
  rw [hbase, ha', ← hj', set_getCell_self]

/-! ### Idempotence of the full normalizer (claim C5) -/

theorem renameChannelName_idem (c : String) :
    renameChannelName (renameChannelName c) = renameChannelName c := by
  by_cases h : c = "Channel "
  · simp [renameChannelName, h]
  · simp [renameChannelName, h]

theorem map_congr_mem {α β : Type} {l : List α} {f g : α → β}
    (h : ∀ a ∈ l, f a = g a) : l.map f = l.map g := by
  induction l with
  | nil => rfl
  | cons a as ih =>
    simp only [List.map_cons, List.cons.injEq]
    exact ⟨h a (List.mem_cons_self a as), ih fun b hb => h b (List.mem_cons_of_mem a hb)⟩

theorem renameChannel_idem (cols : List String) :
    renameChannel (renameChannel cols) = renameChannel cols := by
  unfold renameChannel
  rw [List.map_map]
  exact map_congr_mem fun c _ => renameChannelName_idem c

theorem renameChannel_append_ag (cols : List String) :
    renameChannel (renameChannel cols ++ ["Age Group"]) =
      renameChannel cols ++ ["Age Group"] := by
  unfold renameChannel
  rw [List.map_append, List.map_map]
  congr 1
  exact map_congr_mem fun c _ => renameChannelName_idem c

set_option maxHeartbeats 1000000 in
/-- C5: the normalizer is idempotent — feeding the table produced by a
completed `clean_data` run back into `clean_data` returns exactly the
same table, column for column and row for row (every already-canonical
Gender, Qty, Channel, Age, Date, Amount, and Age Group value maps to
itself).  Rows are rectangular (`wfT`), as in every real DataFrame. -/
theorem claim_clean_idempotent (t t' : Table) (hwf : wfT t)
    (h : (clean_data (some t)).ret = some t') :
    (clean_data (some t')).ret = some t' := by
  obtain ⟨ig, iq, ic, ia, idt, im, hG, hQ, hC, hA, hD, hM, hcase⟩ :=
    cleanRun_true_elim (clean_data_ret h)
  have dgq := colIdx_ne hG hQ (by decide)
  have dgc := colIdx_ne hG hC (by decide)
  have dga := colIdx_ne hG hA (by decide)
  have dgd := colIdx_ne hG hD (by decide)
  have dgm := colIdx_ne hG hM (by decide)
  have dqc := colIdx_ne hQ hC (by decide)
  have dqa := colIdx_ne hQ hA (by decide)
  have dqd := colIdx_ne hQ hD (by decide)
  have dqm := colIdx_ne hQ hM (by decide)
  have dca := colIdx_ne hC hA (by decide)
  have dcd := colIdx_ne hC hD (by decide)
  have dcm := colIdx_ne hC hM (by decide)
  have dad := colIdx_ne hA hD (by decide)
  have dam := colIdx_ne hA hM (by decide)
  have ddm := colIdx_ne hD hM (by decide)
  have hlen : (renameChannel t.cols).length = t.cols.length := List.length_map _ _
  have hg := colIdx_lt hG
  have hq := colIdx_lt hQ
  have hc := colIdx_lt hC
  have ha := colIdx_lt hA
  have hd := colIdx_lt hD
  have hm := colIdx_lt hM
  suffices hrun' : cleanRun t' = (t', true) by
    simp [clean_data, hrun']
  rcases hcase with ⟨jag, hAG, ht⟩ | ⟨hAG, ht⟩
  · have dgj := colIdx_ne hG hAG (by decide)
    have dqj := colIdx_ne hQ hAG (by decide)
    have dcj := colIdx_ne hC hAG (by decide)
    have daj := colIdx_ne hA hAG (by decide)
    have ddj := colIdx_ne hD hAG (by decide)
    have dmj := colIdx_ne hM hAG (by decide)
    have hjlt := colIdx_lt hAG
    subst ht
    simp only [cleanRun, renameChannel_idem, mapCol_eq _ _ clean_gender hG,
      mapCol_eq _ _ qtyWordStep hQ, mapCol_eq _ _ to_numeric hQ,
      mapCol_eq _ _ cleanChannelVal hC, mapCol_eq _ _ to_numeric hA,
      mapCol_eq _ _ to_datetime_D hD, mapCol_eq _ _ to_numeric hM,
      setColFrom_over _ _ get_age_group hA hAG, List.map_map]
    congr 1
    congr 1
    refine map_congr_mem fun r hr => ?_
    have hrl : r.length = t.cols.length := hwf r hr
    simp only [Function.comp_apply]
    exact rowOver_fix ig iq ic ia idt im jag r dgq dgc dga dgd dgm dqc dqa dqd dqm
      dca dcd dcm dad dam ddm dgj dqj dcj daj ddj dmj
      (by omega) (by omega) (by omega) (by omega) (by omega) (by omega) (by omega)
  · have hG' := colIdx_append_found ["Age Group"] hG
    have hQ' := colIdx_append_found ["Age Group"] hQ
    have hC' := colIdx_append_found ["Age Group"] hC
    have hA' := colIdx_append_found ["Age Group"] hA
    have hD' := colIdx_append_found ["Age Group"] hD
    have hM' := colIdx_append_found ["Age Group"] hM
    have hjnew := colIdx_append_new hAG
    subst ht
    simp only [cleanRun, renameChannel_append_ag, mapCol_eq _ _ clean_gender hG',
      mapCol_eq _ _ qtyWordStep hQ', mapCol_eq _ _ to_numeric hQ',
      mapCol_eq _ _ cleanChannelVal hC', mapCol_eq _ _ to_numeric hA',
      mapCol_eq _ _ to_datetime_D hD', mapCol_eq _ _ to_numeric hM',
      setColFrom_over _ _ get_age_group hA' hjnew, List.map_map]
    congr 1
    congr 1
    refine map_congr_mem fun r hr => ?_
    have hrl : r.length = t.cols.length := hwf r hr
    simp only [Function.comp_apply]
    rw [show (renameChannel t.cols).length = r.length by omega]
    exact rowApp_fix ig iq ic ia idt im r dgq dgc dga dgd dgm dqc dqa dqd dqm
      dca dcd dcm dad dam ddm
      (by omega) (by omega) (by omega) (by omega) (by omega) (by omega)

theorem claim_clean_idempotent_witness :
    (clean_data (some ((cleanRun tEx).1))).ret = some ((cleanRun tEx).1) :=
  claim_clean_idempotent tEx ((cleanRun tEx).1) (by decide) (by decide)
